import Mathlib

/-!
Verification of the agent orchestration core of the slack-mcp-client
repository.  The definitions below are a shallow embedding of the Python
source:

* `AgentManger` (sic, the source's spelling) from
  `src/mcp_client/agent_manager_interface.py`: the provider-agnostic
  orchestration loop `process_query`, tool resolution
  `find_server_for_tool`, and answer flattening `flatten_assistant_text` /
  `part_to_text`.
* `ServerConnectionManager` from `src/mcp_client/server_manager.py`:
  configuration loading `load_server_config` and environment-variable
  substitution `process_env_variables`.
* `MCPClient` from `src/mcp_client/client.py`: query routing
  (`process_query`), keyword-based server selection
  (`select_appropriate_server`) and `query_requires_mcp`.

Python strings are modelled as Lean `String` except in the
environment-substitution code, where Python's slicing (`value[2:-1]`)
is modelled on `List Char` (a Python `str` is exactly a sequence of
characters).  Python exceptions are modelled with `Except`; logging
calls are modelled as boolean/numeric fields of the result where a claim
talks about them.  `async` functions are deterministic single-task code
here (the loop awaits every call before continuing), so they embed as
pure functions.
-/

namespace SlackMcp

/-- One element of an assistant response's `content`.  The source treats
parts as opaque objects and only inspects them through
`AgentManger._part_to_text`, which distinguishes plain strings, objects
with a non-`None` `text` attribute, and objects flagged as
`function_call` / `function_response` (both flattened to the empty
string). -/
inductive Part where
  | str (s : String)
  | obj (text : Option String) (function_call : Bool) (function_response : Bool)
deriving DecidableEq, Repr

/-- A message's `content` field: either a list of parts (assistant turns
appended by the loop) or a single value (the user query is a bare
string). -/
inductive Content where
  | parts (l : List Part)
  | single (p : Part)
deriving DecidableEq, Repr

/-- A role-tagged conversation message, `{"role": ..., "content": ...}`. -/
structure Message where
  role : String
  content : Content
deriving DecidableEq, Repr

/-- A tool advertised by a server; `_find_server_for_tool` only reads
`t.name`. -/
structure Tool where
  name : String
deriving DecidableEq, Repr

/-- A tool-call directive extracted from an assistant turn; the loop
reads `call["name"]` and `call["args"]`. -/
structure ToolCall (Args : Type) where
  name : String
  args : Args

/-- A connected tool-server session as seen by the orchestration loop:
`list_tools` yields `tools`, and `call_tool` either returns a result or
raises (modelled with `Except`). -/
structure Server (Args Res : Type) where
  name : String
  tools : List Tool
  call_tool : String → Args → Except String Res

/-- The abstract-method surface of `AgentManger` that concrete provider
adapters implement. -/
structure Adapter (Raw Schema Args Res : Type) where
  prepare_tools : List (Server Args Res) → List Schema
  generate_response : List Message → List Schema → Raw × Bool × List Part
  extract_tool_calls : List Part → List (ToolCall Args)
  integrate_tool_result : List Message → ToolCall Args → Res → List Message

namespace AgentManger

/-- `AgentManger.MAX_DEPTH` — the round bound of the orchestration loop. -/
def MAX_DEPTH : Nat := 5

/-- `AgentManger._part_to_text`: plain strings pass through, a non-`None`
`text` attribute is used, and tool-call / tool-result structural parts
(and anything else) become the empty string. -/
def part_to_text : Part → String
  | .str s => s
  | .obj (some t) _ _ => t
  | .obj none _ _ => ""

/-- The texts contributed by one message's content: the source iterates a
list content element-wise and treats any other content as a single
part. -/
def content_texts : Content → List String
  | .parts l => l.map part_to_text
  | .single p => [part_to_text p]

/-- Separator used by `"\n".join(all_texts)`. -/
def newline_sep : String := "\n"

/-- `AgentManger._flatten_assistant_text`: collect the texts of every
`assistant`-role message, in order, and join them with newlines. -/
def flatten_assistant_text (messages : List Message) : String :=
  String.intercalate newline_sep
    (((messages.filter (fun m => m.role == "assistant")).map
      (fun m => content_texts m.content)).flatten)

/-- `AgentManger._find_server_for_tool`: scan the sessions in order and
return the first whose current tool list contains the name; raise
`RuntimeError` if none does. -/
def find_server_for_tool {Args Res : Type} :
    List (Server Args Res) → String → Except String (Server Args Res)
  | [], tool_name =>
      .error ("No server exposes tool '" ++ tool_name ++ "'")
  | s :: rest, tool_name =>
      if s.tools.any (fun t => t.name == tool_name) then .ok s
      else find_server_for_tool rest tool_name

/-- The `for call in calls:` body of `process_query`: resolve each call to
a server, invoke the tool, and integrate the result; the first raised
error aborts the whole query. -/
def dispatch_calls {Raw Schema Args Res : Type}
    (A : Adapter Raw Schema Args Res) (servers : List (Server Args Res)) :
    List (ToolCall Args) → List Message → Except String (List Message)
  | [], messages => .ok messages
  | call :: rest, messages =>
      match find_server_for_tool servers call.name with
      | .error e => .error e
      | .ok server =>
          match server.call_tool call.name call.args with
          | .error e => .error e
          | .ok result =>
              dispatch_calls A servers rest
                (A.integrate_tool_result messages call result)

/-- The initial conversation seeded with the user's query. -/
def user_message (query : String) : Message :=
  ⟨"user", .single (.str query)⟩

/-- The `while depth < MAX_DEPTH` loop of `AgentManger.process_query`.
`fuel` is `MAX_DEPTH - depth`, so recursion is structural; the guard
`depth < MAX_DEPTH` is the source's loop condition.  The result carries
the final message list, the final `depth` counter, and whether the
"tool_call but none extracted" warning was logged. -/
def process_query_loop {Raw Schema Args Res : Type}
    (A : Adapter Raw Schema Args Res) (servers : List (Server Args Res))
    (tools : List Schema) :
    Nat → List Message → Nat → Except String (List Message × Nat × Bool)
  | 0, messages, depth => .ok (messages, depth, false)
  | fuel + 1, messages, depth =>
      if depth < MAX_DEPTH then
        match A.generate_response messages tools with
        | (_, has_call, parts) =>
            let messages1 := messages ++ [⟨"assistant", .parts parts⟩]
            if has_call then
              match A.extract_tool_calls parts with
              | [] => .ok (messages1, depth, true)
              | call :: rest =>
                  match dispatch_calls A servers (call :: rest) messages1 with
                  | .error e => .error e
                  | .ok messages2 =>
                      process_query_loop A servers tools fuel messages2 (depth + 1)
            else .ok (messages1, depth, false)
      else .ok (messages, depth, false)

/-- `AgentManger.process_query` instrumented with its loop counter and
warning flag (the source returns only the flattened text; see
`process_query` below). -/
def process_query_full {Raw Schema Args Res : Type}
    (A : Adapter Raw Schema Args Res) (servers : List (Server Args Res))
    (query : String) : Except String (List Message × Nat × Bool) :=
  process_query_loop A servers (A.prepare_tools servers) MAX_DEPTH
    [user_message query] 0

/-- `AgentManger.process_query`: run the loop and flatten the assistant
turns; a raised error propagates to the caller. -/
def process_query {Raw Schema Args Res : Type}
    (A : Adapter Raw Schema Args Res) (servers : List (Server Args Res))
    (query : String) : Except String String :=
  match process_query_full A servers query with
  | .error e => .error e
  | .ok (messages, _, _) => .ok (flatten_assistant_text messages)

end AgentManger

end SlackMcp

namespace SlackMcp

namespace ServerConnectionManager

/-- A JSON value of a server config `env` mapping: Python checks
`isinstance(value, str)`, so the model distinguishes strings (as
character sequences, to mirror Python slicing) from any other JSON
value, which passes through untouched. -/
inductive EnvValue where
  | str (s : List Char)
  | other (v : Nat)
deriving DecidableEq, Repr

/-- One entry of `ServerConnectionManager._process_env_variables`'s loop
body: the returned value together with whether the "not found" warning
was logged.  A string value beginning with `$` is resolved against the
host environment (`$VAR` strips one character, `$\x7bVAR\x7d` strips two
and the final brace); an unset variable falls back to the literal value
with a warning; anything else passes through unchanged. -/
def process_env_value (osenv : List (List Char × List Char)) :
    EnvValue → EnvValue × Bool
  | .other v => (.other v, false)
  | .str value =>
      if List.isPrefixOf [Char.ofNat 36] value then
        let env_var_name :=
          if List.isPrefixOf [Char.ofNat 36, Char.ofNat 123] value then
            (value.drop 2).dropLast
          else value.drop 1
        match List.lookup env_var_name osenv with
        | some env_value => (.str env_value, false)
        | none => (.str value, true)
      else (.str value, false)

/-- `ServerConnectionManager._process_env_variables`: `None` passes
through; otherwise every entry's value is processed by the loop body.
The second component counts the logged warnings. -/
def process_env_variables (osenv : List (List Char × List Char)) :
    Option (List (List Char × EnvValue)) →
    Option (List (List Char × EnvValue) × Nat)
  | none => none
  | some env_config =>
      some (env_config.map (fun kv => (kv.1, (process_env_value osenv kv.2).1)),
        env_config.countP (fun kv => (process_env_value osenv kv.2).2))

/-- One configured server's entry as `load_server_config` reads it: the
optional `keywords` list is extracted; the remaining fields (transport,
command, args, env) are carried opaquely and not touched at load time. -/
structure ServerConfigEntry where
  keywords : Option (List String)
  rest : Nat
deriving DecidableEq, Repr

/-- The mutable state of a `ServerConnectionManager` that
`load_server_config` touches: the stored raw config and the per-server
keyword lists (`self.servers` stays empty until connect time). -/
structure ManagerState where
  server_config : List (String × ServerConfigEntry)
  server_keywords : List (String × List String)
deriving DecidableEq, Repr

/-- A fresh manager: `self.server_config = {}` and
`self.server_keywords = {}`. -/
def empty_manager : ManagerState := ⟨[], []⟩

/-- Assoc-list update standing for `self.server_keywords[name] = ks`. -/
def set_keywords (kws : List (String × List String)) (name : String)
    (ks : List String) : List (String × List String) :=
  if kws.any (fun kv => kv.1 == name) then
    kws.map (fun kv => if kv.1 == name then (name, ks) else kv)
  else kws ++ [(name, ks)]

/-- `ServerConnectionManager.load_server_config`: the file read and JSON
parse are the `readResult` argument.  Any exception is caught: the error
is logged (second component `true`) and the state is returned unchanged.
On success the config is stored and each entry carrying a `keywords`
field updates `server_keywords`. -/
def load_server_config (st : ManagerState)
    (readResult : Except String (List (String × ServerConfigEntry))) :
    ManagerState × Bool :=
  match readResult with
  | .error _ => (st, true)
  | .ok config =>
      (⟨config,
        config.foldl
          (fun acc kv =>
            match kv.2.keywords with
            | some ks => set_keywords acc kv.1 ks
            | none => acc)
          st.server_keywords⟩, false)

end ServerConnectionManager

namespace MCPClient

/-- Substring test standing for Python's `needle in haystack`. -/
def char_infix (pat : List Char) : List Char → Bool
  | [] => pat.isEmpty
  | c :: rest => List.isPrefixOf pat (c :: rest) || char_infix pat rest

/-- `pat in hay` on Lean strings. -/
def str_in (pat hay : String) : Bool := char_infix pat.data hay.data

/-- Python's `str.lower()`, modelled per character (the embedding's
strings are ASCII; Lean's own `String.toLower` is equivalent here but
its `mapAux` recursion does not reduce in the kernel). -/
def str_lower (s : String) : String := ⟨s.data.map Char.toLower⟩

/-- The `tool_indicators` list of `MCPClient._query_requires_mcp`. -/
def tool_indicators : List String :=
  ["use tool", "using tool", "with tool", "execute", "run",
   "call function", "api", "server", "database", "fetch", "retrieve"]

/-- `MCPClient._query_requires_mcp`: with no keywords at all the answer
is `false`; otherwise the query matches if any keyword or any tool
indicator occurs in the lowercased query. -/
def query_requires_mcp (server_keywords : List (String × List String))
    (query : String) : Bool :=
  let all_keywords := (server_keywords.map (fun kv => kv.2)).flatten
  if all_keywords.isEmpty then false
  else
    let query_lower := str_lower query
    all_keywords.any (fun k => str_in k query_lower) ||
      tool_indicators.any (fun k => str_in k query_lower)

/-- The keyword list used for one server in
`MCPClient._select_appropriate_server`: the configured list, or the
server's own lowercased name when none (or an empty one) is present. -/
def keywords_for (server_keywords : List (String × List String))
    (name : String) : List String :=
  let ks :=
    match List.lookup name server_keywords with
    | some ks => ks
    | none => []
  if ks.isEmpty then [str_lower name] else ks

/-- `match_count` for one server: how many of its keywords occur in the
lowercased query. -/
def match_count (server_keywords : List (String × List String))
    (query_lower : String) (name : String) : Nat :=
  (keywords_for server_keywords name).countP (fun k => str_in k query_lower)

/-- Python's `max(items, key=...)`: the first element attaining the
maximal count (later elements replace only on a strictly greater
count). -/
def best_match (p : String × Nat) (rest : List (String × Nat)) :
    String × Nat :=
  rest.foldl (fun best q => if best.2 < q.2 then q else best) p

/-- `MCPClient._select_appropriate_server`: count keyword matches per
server (in list order), pick the first best-scoring server when any
matched, else fall back to the first server.  The source indexes
`server_names[0]`, so the empty case (never reached from
`process_query`) is mapped to `""`. -/
def select_appropriate_server (server_keywords : List (String × List String))
    (query : String) (server_names : List String) : String :=
  match server_names with
  | [] => ""
  | n0 :: _ =>
      let query_lower := str_lower query
      let server_matches := server_names.filterMap (fun name =>
        let c := match_count server_keywords query_lower name
        if 0 < c then some (name, c) else none)
      match server_matches with
      | [] => n0
      | p :: rest => (best_match p rest).1

/-- What `MCPClient.process_query` does with a query: answer it without
tools, return a literal message string, or hand it to the agent manager
with the chosen server. -/
inductive ClientAction where
  | direct
  | message (s : String)
  | withServer (name : String)
deriving DecidableEq, Repr

/-- Separator of `", ".join(server_names)`. -/
def comma_sep : String := ", "

/-- `MCPClient.process_query` (the routing layer): with no connected
servers, or no explicit server and a query that does not look like it
needs tools, the query is answered directly; an explicit or
auto-selected server name not among the connected ones yields the
"not found" message; a missing session yields the session error; else
the query is processed with that server. -/
def process_query (server_names : List String)
    (server_keywords : List (String × List String))
    (has_session : String → Bool) (query : String)
    (server_name : Option String) : ClientAction :=
  if server_names.isEmpty ||
      (server_name.isNone && !query_requires_mcp server_keywords query) then
    .direct
  else
    let name :=
      match server_name with
      | some n => n
      | none => select_appropriate_server server_keywords query server_names
    if server_names.contains name then
      if has_session name then .withServer name
      else .message ("Error: Could not get session for server '" ++ name ++ "'")
    else
      .message ("Server '" ++ name ++ "' not found. Available servers: " ++
        String.intercalate comma_sep server_names)

end MCPClient

namespace ToolServer

/-- The outcome of one `call_tool` invocation with retry: the returned
or raised value, the number of attempts made, and the sleeps (each of
`delay` seconds) between attempts — one sleep per logged retry
warning. -/
structure RetryResult (Res : Type) where
  result : Except String Res
  attempts : Nat
  sleeps : List Nat

/-- Modelled from the spec: the `Server` tool session class (imported by
`agent_manager_interface.py` from `mcp_client.server_manager`) is absent
from the repository's files, so its `call_tool` retry loop is modelled
from §4.1: attempt the underlying call; on success return; on failure
with attempts remaining log a retry warning, sleep `delay`, and try
again; on the last attempt raise the last error.  `call` maps the
attempt number (1-based) to that attempt's outcome. -/
def call_tool_go {Res : Type} (call : Nat → Except String Res)
    (delay : Nat) : Nat → Nat → RetryResult Res
  | _, 0 => ⟨.error "call_tool invoked with zero attempts", 0, []⟩
  | attempt, remaining + 1 =>
      match call attempt with
      | .ok r => ⟨.ok r, 1, []⟩
      | .error e =>
          if remaining = 0 then ⟨.error e, 1, []⟩
          else
            let rest := call_tool_go call delay (attempt + 1) remaining
            ⟨rest.result, rest.attempts + 1, delay :: rest.sleeps⟩

/-- Modelled from the spec: `call_tool(name, args, retries=2, delay=1s)`
— up to `retries` attempts total with a fixed `delay` between
attempts. -/
def call_tool {Res : Type} (call : Nat → Except String Res)
    (retries : Nat) (delay : Nat) : RetryResult Res :=
  call_tool_go call delay 1 retries

/-- The spec's default retry count. -/
def DEFAULT_RETRIES : Nat := 2

/-- The spec's default delay between attempts, in seconds. -/
def DEFAULT_DELAY : Nat := 1

end ToolServer

/-! Concrete adapters and servers used to exercise the orchestration
loop on closed inputs. -/

/-- A session exposing only the tool `lookup` and accepting every call. -/
def lookup_server : Server Unit Unit :=
  ⟨"b", [⟨"lookup"⟩], fun _ _ => .ok ()⟩

/-- A session exposing only the tool `alpha`. -/
def alpha_server : Server Unit Unit :=
  ⟨"a", [⟨"alpha"⟩], fun _ _ => .ok ()⟩

/-- An adapter that answers "Hello" with a tool call on the first round
and "World" with no tool call afterwards. -/
def two_round_adapter : Adapter Unit Unit Unit Unit :=
  ⟨fun _ => [],
   fun messages _ =>
     if messages.length == 1 then ((), true, [.str "Hello", .obj none true false])
     else ((), false, [.str "World"]),
   fun _ => [⟨"lookup", ()⟩],
   fun messages _ _ => messages ++ [⟨"user", .single (.str "tool-result")⟩]⟩

/-- An adapter stubbed to always request the extractable tool call
`lookup`. -/
def always_call_adapter : Adapter Unit Unit Unit Unit :=
  ⟨fun _ => [],
   fun _ _ => ((), true, [.str "x"]),
   fun _ => [⟨"lookup", ()⟩],
   fun messages _ _ => messages ++ [⟨"user", .single (.str "tool-result")⟩]⟩

/-- An adapter whose generate step never requests a tool call. -/
def no_call_adapter : Adapter Unit Unit Unit Unit :=
  ⟨fun _ => [],
   fun _ _ => ((), false, [.str "Hi there"]),
   fun _ => [],
   fun messages _ _ => messages⟩

/-- An adapter that sets the tool-call flag but yields no extractable
call (malformed provider output). -/
def malformed_adapter : Adapter Unit Unit Unit Unit :=
  ⟨fun _ => [],
   fun _ _ => ((), true, [.str "Partial answer"]),
   fun _ => [],
   fun messages _ _ => messages⟩

/-- An adapter that requests a tool that no server exposes. -/
def unknown_tool_adapter : Adapter Unit Unit Unit Unit :=
  ⟨fun _ => [],
   fun _ _ => ((), true, [.str "x"]),
   fun _ => [⟨"missing", ()⟩],
   fun messages _ _ => messages⟩

/-- Keyword table used by the server-selection witness. -/
def gmail_keywords : List (String × List String) :=
  [("gmail", ["mail", "gmail"])]

end SlackMcp

namespace SlackMcp

namespace AgentManger

/-- C2 counterexample: running `process_query` so that the assistant
turns carry "Hello", a tool-call structural part and "World" across two
rounds returns "Hello\n\nWorld" — the tool-call part contributes an
empty string to the newline join — not the claimed "Hello\nWorld". -/
theorem flatten_hello_world_counterexample :
    process_query two_round_adapter [lookup_server] "q" = .ok "Hello\n\nWorld" ∧
    ("Hello\n\nWorld" : String) ≠ "Hello\nWorld" := by
  exact ⟨rfl, by decide⟩

/-- C2 (amended): flattening assistant turns carrying "Hello", one
tool-call/tool-result structural part, and "World" yields
"Hello\n\nWorld": structural parts are not skipped but flattened to the
empty string, which the newline join keeps as an empty line. -/
theorem flatten_tool_call_blank_line (q : String) (fc fr : Bool) :
    flatten_assistant_text
      [user_message q,
       ⟨"assistant", .parts [.str "Hello", .obj none fc fr]⟩,
       ⟨"assistant", .parts [.str "World"]⟩] = "Hello\n\nWorld" := rfl

end AgentManger

namespace ServerConnectionManager

/-- C7 counterexample: feeding `load_server_config` a failing read (a
malformed JSON parse error) does not fail fast — the call returns
normally, merely logging the error, and the registry keeps its empty
configuration (zero servers). -/
theorem load_config_counterexample :
    load_server_config empty_manager
        (.error "Expecting value: line 1 column 1 (char 0)") =
      (empty_manager, true) ∧
    empty_manager.server_config = [] := ⟨rfl, rfl⟩

/-- C7 (amended): a malformed or missing configuration source is caught
inside `load_server_config`: the error is only logged and the manager
state is left unchanged, so a registry constructed this way proceeds
with its previous — initially empty — server set instead of failing. -/
theorem load_config_malformed_logged (st : ManagerState) (e : String) :
    load_server_config st (.error e) = (st, true) := rfl

/-- C8: env values of the form `$VAR` or `$\x7bVAR\x7d` resolve to the
host environment's value of `VAR` when set; when unset the literal
original string is kept and a warning is logged; values not beginning
with `$` pass through unchanged. -/
theorem env_substitution (osenv : List (List Char × List Char))
    (VAR val s : List Char) :
    (VAR.head? ≠ some '{' → List.lookup VAR osenv = some val →
      process_env_value osenv (.str ( '$' :: VAR)) = (.str val, false))
  ∧ (VAR.head? ≠ some '{' → List.lookup VAR osenv = none →
      process_env_value osenv (.str ( '$' :: VAR)) = (.str ( '$' :: VAR), true))
  ∧ (List.lookup VAR osenv = some val →
      process_env_value osenv (.str ( '$' :: '{' :: (VAR ++ [ '}' ]))) =
        (.str val, false))
  ∧ (List.lookup VAR osenv = none →
      process_env_value osenv (.str ( '$' :: '{' :: (VAR ++ [ '}' ]))) =
        (.str ( '$' :: '{' :: (VAR ++ [ '}' ])), true))
  ∧ (s.head? ≠ some '$' → process_env_value osenv (.str s) = (.str s, false)) := by
  have hbrace : ∀ (l : List Char), l.head? ≠ some '{' → ¬ ([ '{' ] <+: l) := by
    intro l hl h
    cases l with
    | nil => simp at h
    | cons c tl =>
        rw [List.cons_prefix_cons] at h
        obtain ⟨h1, -⟩ := h
        subst h1
        simp at hl
  refine ⟨?_, ?_, ?_, ?_, ?_⟩
  · intro hv hl
    simp [process_env_value, List.isPrefixOf, hbrace VAR hv, hl]
  · intro hv hl
    simp [process_env_value, List.isPrefixOf, hbrace VAR hv, hl]
  · intro hl
    simp [process_env_value, List.isPrefixOf, List.dropLast_concat, hl]
  · intro hl
    simp [process_env_value, List.isPrefixOf, List.dropLast_concat, hl]
  · intro hs
    cases s with
    | nil => rfl
    | cons c tl =>
        simp only [List.head?] at hs
        have : List.isPrefixOf [ '$' ] (c :: tl) = false := by
          simp [List.isPrefixOf]
          intro h
          exact absurd (by rw [h]) hs
        simp [process_env_value, this]

/-- C8 witness: the entry `TOKEN = "$MY_TOKEN"` resolves to the host's
`MY_TOKEN` when present, falls back to the literal with a warning when
absent, and a non-`$` value passes through. -/
theorem env_substitution_witness :
    process_env_value [("MY_TOKEN".data, "tok123".data)]
        (.str ( '$' :: "MY_TOKEN".data)) = (.str ("tok123".data), false)
  ∧ process_env_value [] (.str ( '$' :: "MY_TOKEN".data)) =
      (.str ( '$' :: "MY_TOKEN".data), true)
  ∧ process_env_value [("MY_TOKEN".data, "tok123".data)]
        (.str ( '$' :: '{' :: ("MY_TOKEN".data ++ [ '}' ]))) =
      (.str ("tok123".data), false)
  ∧ process_env_value [] (.str ("literal".data)) =
      (.str ("literal".data), false) :=
  ⟨(env_substitution [("MY_TOKEN".data, "tok123".data)] "MY_TOKEN".data
      "tok123".data []).1 (by decide) (by decide),
   (env_substitution [] "MY_TOKEN".data [] []).2.1 (by decide) (by decide),
   (env_substitution [("MY_TOKEN".data, "tok123".data)] "MY_TOKEN".data
      "tok123".data []).2.2.1 (by decide),
   (env_substitution [] [] [] "literal".data).2.2.2.2 (by decide)⟩

end ServerConnectionManager

namespace ToolServer

/-- C3: with the spec's `retries = 2` and `delay = 1`, a tool call whose
underlying invocation fails once and then succeeds returns the success
result after exactly 2 attempts with one retry warning (one sleep of 1
second); when both attempts fail, the last error is raised after 2
attempts. -/
theorem call_tool_retry {Res : Type} (call : Nat → Except String Res)
    (e e1 e2 : String) (r : Res) :
    (call 1 = .error e → call 2 = .ok r →
      call_tool call DEFAULT_RETRIES DEFAULT_DELAY = ⟨.ok r, 2, [1]⟩)
  ∧ (call 1 = .error e1 → call 2 = .error e2 →
      call_tool call DEFAULT_RETRIES DEFAULT_DELAY = ⟨.error e2, 2, [1]⟩) := by
  constructor
  · intro h1 h2
    simp [call_tool, call_tool_go, DEFAULT_RETRIES, DEFAULT_DELAY, h1, h2]
  · intro h1 h2
    simp [call_tool, call_tool_go, DEFAULT_RETRIES, DEFAULT_DELAY, h1, h2]

/-- C3 witness: a call failing on attempt 1 and succeeding on attempt 2
returns the success after 2 attempts and one 1-second retry sleep; a
call failing on both attempts raises the second error. -/
theorem call_tool_retry_witness :
    call_tool (fun n => if n == 1 then .error "boom" else .ok 42)
        DEFAULT_RETRIES DEFAULT_DELAY = ⟨.ok 42, 2, [1]⟩
  ∧ call_tool
        (fun n => (.error (if n == 1 then "first" else "second") :
          Except String Nat))
        DEFAULT_RETRIES DEFAULT_DELAY = ⟨.error "second", 2, [1]⟩ :=
  ⟨(call_tool_retry (fun n => if n == 1 then .error "boom" else .ok 42)
      "boom" "" "" 42).1 rfl rfl,
   (call_tool_retry
      (fun n => (.error (if n == 1 then "first" else "second") :
        Except String Nat))
      "" "first" "second" 42).2 rfl rfl⟩

end ToolServer

namespace AgentManger

lemma loop_step_no_call {Raw Schema Args Res : Type}
    (A : Adapter Raw Schema Args Res) (servers : List (Server Args Res))
    (tools : List Schema) (fuel : Nat) (messages : List Message) (depth : Nat)
    (hd : depth < MAX_DEPTH) (raw : Raw) (parts : List Part)
    (hgr : A.generate_response messages tools = (raw, false, parts)) :
    process_query_loop A servers tools (fuel + 1) messages depth =
      .ok (messages ++ [⟨"assistant", .parts parts⟩], depth, false) := by
  simp [process_query_loop, hd, hgr]

lemma loop_step_malformed {Raw Schema Args Res : Type}
    (A : Adapter Raw Schema Args Res) (servers : List (Server Args Res))
    (tools : List Schema) (fuel : Nat) (messages : List Message) (depth : Nat)
    (hd : depth < MAX_DEPTH) (raw : Raw) (parts : List Part)
    (hgr : A.generate_response messages tools = (raw, true, parts))
    (hce : A.extract_tool_calls parts = []) :
    process_query_loop A servers tools (fuel + 1) messages depth =
      .ok (messages ++ [⟨"assistant", .parts parts⟩], depth, true) := by
  simp [process_query_loop, hd, hgr, hce]

lemma loop_step_calls {Raw Schema Args Res : Type}
    (A : Adapter Raw Schema Args Res) (servers : List (Server Args Res))
    (tools : List Schema) (fuel : Nat) (messages : List Message) (depth : Nat)
    (hd : depth < MAX_DEPTH) (raw : Raw) (parts : List Part)
    (c : ToolCall Args) (rest : List (ToolCall Args))
    (hgr : A.generate_response messages tools = (raw, true, parts))
    (hce : A.extract_tool_calls parts = c :: rest) :
    process_query_loop A servers tools (fuel + 1) messages depth =
      (match dispatch_calls A servers (c :: rest)
          (messages ++ [⟨"assistant", .parts parts⟩]) with
       | .error e => .error e
       | .ok messages2 =>
           process_query_loop A servers tools fuel messages2 (depth + 1)) := by
  simp [process_query_loop, hd, hgr, hce]

lemma dispatch_calls_ok {Raw Schema Args Res : Type}
    (A : Adapter Raw Schema Args Res) (servers : List (Server Args Res)) :
    ∀ (calls : List (ToolCall Args)) (messages : List Message),
      (∀ c ∈ calls, ∃ s r, find_server_for_tool servers c.name = .ok s ∧
        s.call_tool c.name c.args = .ok r) →
      ∃ messages2, dispatch_calls A servers calls messages = .ok messages2 := by
  intro calls
  induction calls with
  | nil => intro messages _; exact ⟨messages, rfl⟩
  | cons c rest ih =>
      intro messages h
      obtain ⟨s, r, hf, hc⟩ := h c (List.mem_cons_self c rest)
      obtain ⟨messages2, h2⟩ :=
        ih (A.integrate_tool_result messages c r)
          (fun c2 hc2 => h c2 (List.mem_cons_of_mem c hc2))
      exact ⟨messages2, by simp [dispatch_calls, hf, hc, h2]⟩

lemma process_query_loop_always {Raw Schema Args Res : Type}
    (A : Adapter Raw Schema Args Res) (servers : List (Server Args Res))
    (tools : List Schema)
    (hgen : ∀ msgs, (A.generate_response msgs tools).2.1 = true)
    (hext : ∀ parts, A.extract_tool_calls parts ≠ [])
    (hvalid : ∀ parts, ∀ c ∈ A.extract_tool_calls parts,
      ∃ s r, find_server_for_tool servers c.name = .ok s ∧
        s.call_tool c.name c.args = .ok r) :
    ∀ (fuel depth : Nat) (messages : List Message),
      depth + fuel = MAX_DEPTH →
      ∃ messages2, process_query_loop A servers tools fuel messages depth =
        .ok (messages2, MAX_DEPTH, false) := by
  intro fuel
  induction fuel with
  | zero =>
      intro depth messages h
      have hdep : depth = MAX_DEPTH := by omega
      subst hdep
      exact ⟨messages, rfl⟩
  | succ fuel ih =>
      intro depth messages h
      have hd : depth < MAX_DEPTH := by omega
      rcases hgr : A.generate_response messages tools with ⟨raw, has, parts⟩
      have hh : has = true := by
        have := hgen messages
        rw [hgr] at this
        exact this
      subst hh
      cases hce : A.extract_tool_calls parts with
      | nil => exact absurd hce (hext parts)
      | cons c rest =>
          have hv : ∀ c2 ∈ (c :: rest : List (ToolCall Args)),
              ∃ s r, find_server_for_tool servers c2.name = .ok s ∧
                s.call_tool c2.name c2.args = .ok r := by
            rw [← hce]
            exact hvalid parts
          obtain ⟨messages2, hdp⟩ := dispatch_calls_ok A servers (c :: rest)
            (messages ++ [⟨"assistant", .parts parts⟩]) hv
          obtain ⟨messages3, hrec⟩ := ih (depth + 1) messages2 (by omega)
          refine ⟨messages3, ?_⟩
          rw [loop_step_calls A servers tools fuel messages depth hd raw parts
            c rest hgr hce]
          simp [hdp, hrec]

/-- C1: for an adapter whose generate step always reports a tool call
and whose extraction always yields at least one resolvable, succeeding
call, `process_query` terminates with its round counter at exactly
`MAX_DEPTH` (5) — never more — and returns the flattened text
accumulated so far rather than an error. -/
theorem process_query_round_bound {Raw Schema Args Res : Type}
    (A : Adapter Raw Schema Args Res) (servers : List (Server Args Res))
    (query : String)
    (hgen : ∀ msgs, (A.generate_response msgs (A.prepare_tools servers)).2.1 = true)
    (hext : ∀ parts, A.extract_tool_calls parts ≠ [])
    (hvalid : ∀ parts, ∀ c ∈ A.extract_tool_calls parts,
      ∃ s r, find_server_for_tool servers c.name = .ok s ∧
        s.call_tool c.name c.args = .ok r) :
    ∃ messages, process_query_full A servers query =
        .ok (messages, MAX_DEPTH, false) ∧
      process_query A servers query =
        .ok (flatten_assistant_text messages) := by
  obtain ⟨messages2, h⟩ :=
    process_query_loop_always A servers (A.prepare_tools servers)
      hgen hext hvalid MAX_DEPTH 0 [user_message query] (by omega)
  refine ⟨messages2, h, ?_⟩
  simp only [process_query, process_query_full] at h ⊢
  rw [h]

/-- C1 witness: the always-calling stub adapter against the `lookup`
server runs exactly `MAX_DEPTH` rounds. -/
theorem process_query_round_bound_witness :
    ∃ messages, process_query_full always_call_adapter [lookup_server] "hi" =
        .ok (messages, MAX_DEPTH, false) ∧
      process_query always_call_adapter [lookup_server] "hi" =
        .ok (flatten_assistant_text messages) :=
  process_query_round_bound always_call_adapter [lookup_server] "hi"
    (fun _ => rfl)
    (fun _ => List.cons_ne_nil _ _)
    (fun parts c hc => by
      have hc2 : c = ⟨"lookup", ()⟩ := List.mem_singleton.mp hc
      subst hc2
      exact ⟨lookup_server, (), rfl, rfl⟩)

/-- C6: for an adapter whose generate step never reports a tool call,
`process_query` terminates in exactly one round — one generate call, no
tool dispatch — and returns that single assistant turn's flattened
text. -/
theorem process_query_single_round {Raw Schema Args Res : Type}
    (A : Adapter Raw Schema Args Res) (servers : List (Server Args Res))
    (query : String)
    (hgen : ∀ msgs, (A.generate_response msgs (A.prepare_tools servers)).2.1 = false) :
    process_query_full A servers query =
      .ok ([user_message query,
        ⟨"assistant", .parts
          (A.generate_response [user_message query]
            (A.prepare_tools servers)).2.2⟩], 0, false) ∧
    process_query A servers query =
      .ok (flatten_assistant_text [user_message query,
        ⟨"assistant", .parts
          (A.generate_response [user_message query]
            (A.prepare_tools servers)).2.2⟩]) := by
  rcases hgr : A.generate_response [user_message query]
      (A.prepare_tools servers) with ⟨raw, has, parts⟩
  have hh : has = false := by
    have := hgen [user_message query]
    rw [hgr] at this
    exact this
  subst hh
  have h1 : process_query_full A servers query =
      .ok ([user_message query, ⟨"assistant", .parts parts⟩], 0, false) :=
    loop_step_no_call A servers (A.prepare_tools servers) 4
      [user_message query] 0 (by decide) raw parts hgr
  constructor
  · rw [h1]
  · simp only [process_query, h1]

/-- C6 witness: the never-calling adapter answers in one round. -/
theorem process_query_single_round_witness :
    process_query_full no_call_adapter [] "hi" =
      .ok ([user_message "hi",
        ⟨"assistant", .parts
          (no_call_adapter.generate_response [user_message "hi"]
            (no_call_adapter.prepare_tools [])).2.2⟩], 0, false) ∧
    process_query no_call_adapter [] "hi" =
      .ok (flatten_assistant_text [user_message "hi",
        ⟨"assistant", .parts
          (no_call_adapter.generate_response [user_message "hi"]
            (no_call_adapter.prepare_tools [])).2.2⟩]) :=
  process_query_single_round no_call_adapter [] "hi" (fun _ => rfl)

/-- C4: when the generate step reports a tool call but extraction yields
the empty list, `process_query` logs a warning (the `true` flag) and
terminates on that round — its round counter still 0, no tool invoked —
returning the flattened partial answer. -/
theorem process_query_malformed_escape {Raw Schema Args Res : Type}
    (A : Adapter Raw Schema Args Res) (servers : List (Server Args Res))
    (query : String)
    (hgen : (A.generate_response [user_message query]
      (A.prepare_tools servers)).2.1 = true)
    (hext : A.extract_tool_calls
      (A.generate_response [user_message query]
        (A.prepare_tools servers)).2.2 = []) :
    process_query_full A servers query =
      .ok ([user_message query,
        ⟨"assistant", .parts
          (A.generate_response [user_message query]
            (A.prepare_tools servers)).2.2⟩], 0, true) ∧
    process_query A servers query =
      .ok (flatten_assistant_text [user_message query,
        ⟨"assistant", .parts
          (A.generate_response [user_message query]
            (A.prepare_tools servers)).2.2⟩]) := by
  rcases hgr : A.generate_response [user_message query]
      (A.prepare_tools servers) with ⟨raw, has, parts⟩
  rw [hgr] at hgen hext
  have hh : has = true := hgen
  subst hh
  have h1 : process_query_full A servers query =
      .ok ([user_message query, ⟨"assistant", .parts parts⟩], 0, true) :=
    loop_step_malformed A servers (A.prepare_tools servers) 4
      [user_message query] 0 (by decide) raw parts hgr hext
  constructor
  · rw [h1]
  · simp only [process_query, h1]

lemma find_server_first_match {Args Res : Type}
    (pre post : List (Server Args Res)) (s : Server Args Res) (name : String)
    (hpre : ∀ s2 ∈ pre, s2.tools.any (fun t => t.name == name) = false)
    (hs : s.tools.any (fun t => t.name == name) = true) :
    find_server_for_tool (pre ++ s :: post) name = .ok s := by
  induction pre with
  | nil => simp [find_server_for_tool, hs]
  | cons p pre2 ih =>
      have hp := hpre p (List.mem_cons_self p pre2)
      have ih2 := ih (fun s2 hs2 => hpre s2 (List.mem_cons_of_mem p hs2))
      simp [find_server_for_tool, hp, ih2]

lemma find_server_none {Args Res : Type}
    (servers : List (Server Args Res)) (name : String)
    (hno : ∀ s ∈ servers, s.tools.any (fun t => t.name == name) = false) :
    find_server_for_tool servers name =
      .error ("No server exposes tool '" ++ name ++ "'") := by
  induction servers with
  | nil => rfl
  | cons s rest ih =>
      have hp := hno s (List.mem_cons_self s rest)
      have ih2 := ih (fun s2 hs2 => hno s2 (List.mem_cons_of_mem s hs2))
      simp [find_server_for_tool, hp, ih2]

lemma process_query_unknown_tool {Raw Schema Args Res : Type}
    (A : Adapter Raw Schema Args Res) (servers : List (Server Args Res))
    (query : String) (c : ToolCall Args) (rest : List (ToolCall Args))
    (hgen : (A.generate_response [user_message query]
      (A.prepare_tools servers)).2.1 = true)
    (hext : A.extract_tool_calls
      (A.generate_response [user_message query]
        (A.prepare_tools servers)).2.2 = c :: rest)
    (hno : ∀ s ∈ servers, s.tools.any (fun t => t.name == c.name) = false) :
    process_query A servers query =
      .error ("No server exposes tool '" ++ c.name ++ "'") := by
  rcases hgr : A.generate_response [user_message query]
      (A.prepare_tools servers) with ⟨raw, has, parts⟩
  rw [hgr] at hgen hext
  have hh : has = true := hgen
  subst hh
  have hfind := find_server_none servers c.name hno
  have hstep : process_query_full A servers query =
      (match dispatch_calls A servers (c :: rest)
          ([user_message query] ++ [⟨"assistant", .parts parts⟩]) with
       | .error e => .error e
       | .ok messages2 =>
           process_query_loop A servers (A.prepare_tools servers) 4
             messages2 (0 + 1)) :=
    loop_step_calls A servers (A.prepare_tools servers) 4
      [user_message query] 0 (by decide) raw parts c rest hgr hext
  have hdp : dispatch_calls A servers (c :: rest)
      ([user_message query] ++ [⟨"assistant", .parts parts⟩]) =
      .error ("No server exposes tool '" ++ c.name ++ "'") := by
    simp [dispatch_calls, hfind]
  rw [hdp] at hstep
  simp only [process_query, hstep]

/-- C5: the orchestration loop resolves every extracted tool call to the
first session, in registry order, whose tool list contains the tool's
name; when no session exposes the name, a `RuntimeError` is raised and
propagated out of `process_query` instead of silently no-op-ing. -/
theorem tool_resolution {Raw Schema Args Res : Type} :
    (∀ (pre post : List (Server Args Res)) (s : Server Args Res)
        (name : String),
      (∀ s2 ∈ pre, s2.tools.any (fun t => t.name == name) = false) →
      s.tools.any (fun t => t.name == name) = true →
      find_server_for_tool (pre ++ s :: post) name = .ok s)
  ∧ (∀ (servers : List (Server Args Res)) (name : String),
      (∀ s ∈ servers, s.tools.any (fun t => t.name == name) = false) →
      find_server_for_tool servers name =
        .error ("No server exposes tool '" ++ name ++ "'"))
  ∧ (∀ (A : Adapter Raw Schema Args Res) (servers : List (Server Args Res))
        (query : String) (c : ToolCall Args) (rest : List (ToolCall Args)),
      (A.generate_response [user_message query]
        (A.prepare_tools servers)).2.1 = true →
      A.extract_tool_calls
        (A.generate_response [user_message query]
          (A.prepare_tools servers)).2.2 = c :: rest →
      (∀ s ∈ servers, s.tools.any (fun t => t.name == c.name) = false) →
      process_query A servers query =
        .error ("No server exposes tool '" ++ c.name ++ "'")) :=
  ⟨fun pre post s name hpre hs => find_server_first_match pre post s name hpre hs,
   fun servers name hno => find_server_none servers name hno,
   fun A servers query c rest hgen hext hno =>
     process_query_unknown_tool A servers query c rest hgen hext hno⟩

/-- C5 witness: with sessions A (tool `alpha`) and B (tool `lookup`), a
`lookup` call resolves to B, never A; the unregistered name `missing`
raises, and the error propagates out of `process_query`. -/
theorem tool_resolution_witness :
    find_server_for_tool [alpha_server, lookup_server] "lookup" =
      .ok lookup_server
  ∧ find_server_for_tool [alpha_server, lookup_server] "missing" =
      .error ("No server exposes tool '" ++ "missing" ++ "'")
  ∧ process_query unknown_tool_adapter [alpha_server, lookup_server] "hi" =
      .error ("No server exposes tool '" ++ "missing" ++ "'") := by
  have hno : ∀ s ∈ ([alpha_server, lookup_server] : List (Server Unit Unit)),
      s.tools.any (fun t => t.name == "missing") = false := by
    intro s hs
    rcases List.mem_cons.mp hs with h | hs2
    · subst h; rfl
    · rcases List.mem_cons.mp hs2 with h | h3
      · subst h; rfl
      · simp at h3
  refine ⟨?_, ?_, ?_⟩
  · exact (@tool_resolution Unit Unit Unit Unit).1 [alpha_server] []
      lookup_server "lookup"
      (by
        intro s2 hs2
        rcases List.mem_cons.mp hs2 with h | h3
        · subst h; rfl
        · simp at h3)
      rfl
  · exact (@tool_resolution Unit Unit Unit Unit).2.1
      [alpha_server, lookup_server] "missing" hno
  · exact (@tool_resolution Unit Unit Unit Unit).2.2
      unknown_tool_adapter [alpha_server, lookup_server] "hi"
      ⟨"missing", ()⟩ [] rfl rfl hno

/-- C4 witness: the malformed-output adapter terminates immediately with
the warning flag set and the partial answer returned. -/
theorem process_query_malformed_escape_witness :
    process_query_full malformed_adapter [] "hi" =
      .ok ([user_message "hi",
        ⟨"assistant", .parts
          (malformed_adapter.generate_response [user_message "hi"]
            (malformed_adapter.prepare_tools [])).2.2⟩], 0, true) ∧
    process_query malformed_adapter [] "hi" =
      .ok (flatten_assistant_text [user_message "hi",
        ⟨"assistant", .parts
          (malformed_adapter.generate_response [user_message "hi"]
            (malformed_adapter.prepare_tools [])).2.2⟩]) :=
  process_query_malformed_escape malformed_adapter [] "hi" rfl rfl

end AgentManger

namespace MCPClient

/-- C9 counterexample: with zero connected servers, an explicitly
supplied unknown `server_name` does not produce the "not found" message
— the query is routed to the direct (no-tools) path instead. -/
theorem not_found_counterexample :
    process_query [] [] (fun _ => false) "q" (some "foo") = .direct
  ∧ ClientAction.direct ≠
      .message ("Server 'foo' not found. Available servers: ") :=
  ⟨rfl, by decide⟩

/-- C9 (amended): provided at least one server is connected, an
explicitly supplied `server_name` that is not among the connected names
makes `MCPClient.process_query` return the plain "not found" message —
no exception, no tool invocation; with zero connected servers the query
is instead processed directly without tools. -/
theorem not_found_message (server_names : List String)
    (kw : List (String × List String)) (has_session : String → Bool)
    (query n : String) (h1 : server_names ≠ [])
    (h2 : server_names.contains n = false) :
    process_query server_names kw has_session query (some n) =
      .message ("Server '" ++ n ++ "' not found. Available servers: " ++
        String.intercalate comma_sep server_names) := by
  have hne : server_names.isEmpty = false := by
    cases server_names with
    | nil => exact absurd rfl h1
    | cons a l => rfl
  have hn : ¬ n ∈ server_names := by simpa using h2
  simp [process_query, hne, hn]

/-- C9 witness: with `gmail` connected, asking for `notion` returns the
message naming the available servers. -/
theorem not_found_message_witness :
    process_query ["gmail"] [] (fun _ => true) "q" (some "notion") =
      .message ("Server '" ++ "notion" ++ "' not found. Available servers: " ++
        String.intercalate comma_sep ["gmail"]) :=
  not_found_message ["gmail"] [] (fun _ => true) "q" "notion"
    (by decide) (by decide)

lemma best_match_step (p q : String × Nat) (qrest : List (String × Nat)) :
    best_match p (q :: qrest) = best_match (if p.2 < q.2 then q else p) qrest := by
  simp [best_match]

lemma best_match_mem (p : String × Nat) (rest : List (String × Nat)) :
    best_match p rest = p ∨ best_match p rest ∈ rest := by
  induction rest generalizing p with
  | nil => exact Or.inl rfl
  | cons q qrest ih =>
      rw [best_match_step]
      rcases ih (if p.2 < q.2 then q else p) with h | h
      · rw [h]
        by_cases hpq : p.2 < q.2
        · simp [hpq]
        · simp [hpq]
      · exact Or.inr (List.mem_cons_of_mem q h)

lemma best_match_ge (p : String × Nat) (rest : List (String × Nat)) :
    p.2 ≤ (best_match p rest).2 ∧ ∀ q ∈ rest, q.2 ≤ (best_match p rest).2 := by
  induction rest generalizing p with
  | nil => exact ⟨le_refl _, by simp⟩
  | cons q qrest ih =>
      obtain ⟨h1, h2⟩ := ih (if p.2 < q.2 then q else p)
      have hp : p.2 ≤ (if p.2 < q.2 then q else p).2 := by
        split <;> omega
      have hq : q.2 ≤ (if p.2 < q.2 then q else p).2 := by
        split <;> omega
      refine ⟨?_, ?_⟩
      · rw [best_match_step]
        exact le_trans hp h1
      · intro q2 hq2
        rw [best_match_step]
        rcases List.mem_cons.mp hq2 with h | h
        · rw [h]
          exact le_trans hq h1
        · exact h2 q2 h

lemma mem_server_matches (kw : List (String × List String)) (ql : String)
    (names : List String) (pr : String × Nat)
    (h : pr ∈ names.filterMap (fun name =>
      if 0 < match_count kw ql name then
        some (name, match_count kw ql name) else none)) :
    pr.1 ∈ names ∧ pr.2 = match_count kw ql pr.1 ∧ 0 < pr.2 := by
  obtain ⟨a, ha, hfa⟩ := List.mem_filterMap.mp h
  by_cases hc : 0 < match_count kw ql a
  · simp only [hc, if_pos, Option.some.injEq] at hfa
    rw [← hfa]
    exact ⟨ha, rfl, hc⟩
  · simp [hc] at hfa

lemma server_matches_of_pos (kw : List (String × List String)) (ql : String)
    (names : List String) (n : String) (hn : n ∈ names)
    (hp : 0 < match_count kw ql n) :
    (n, match_count kw ql n) ∈ names.filterMap (fun name =>
      if 0 < match_count kw ql name then
        some (name, match_count kw ql name) else none) :=
  List.mem_filterMap.mpr ⟨n, hn, by simp [hp]⟩

/-- C10: on a non-empty server list, automatic selection returns an
element of the list; the chosen server's keyword-match count is maximal
(so when at least one keyword matches, a best-matching server is
chosen), and when no keyword matches at all the first server is
returned. -/
theorem select_server_spec (kw : List (String × List String))
    (query n0 : String) (rest : List String) :
    select_appropriate_server kw query (n0 :: rest) ∈ n0 :: rest
  ∧ (∀ n ∈ n0 :: rest, match_count kw (str_lower query) n ≤
      match_count kw (str_lower query)
        (select_appropriate_server kw query (n0 :: rest)))
  ∧ ((∀ n ∈ n0 :: rest, match_count kw (str_lower query) n = 0) →
      select_appropriate_server kw query (n0 :: rest) = n0) := by
  have hsel : select_appropriate_server kw query (n0 :: rest) =
      (match (n0 :: rest).filterMap (fun name =>
          if 0 < match_count kw (str_lower query) name then
            some (name, match_count kw (str_lower query) name) else none) with
       | [] => n0
       | p :: prest => (best_match p prest).1) := rfl
  cases hm : (n0 :: rest).filterMap (fun name =>
      if 0 < match_count kw (str_lower query) name then
        some (name, match_count kw (str_lower query) name) else none) with
  | nil =>
      rw [hm] at hsel
      have hz : ∀ n ∈ n0 :: rest, match_count kw (str_lower query) n = 0 := by
        intro n hn
        by_contra hnz
        have hp : 0 < match_count kw (str_lower query) n := Nat.pos_of_ne_zero hnz
        have := server_matches_of_pos kw (str_lower query) (n0 :: rest) n hn hp
        rw [hm] at this
        simp at this
      refine ⟨?_, ?_, ?_⟩
      · rw [hsel]
        exact List.mem_cons_self n0 rest
      · intro n hn
        rw [hz n hn]
        exact Nat.zero_le _
      · intro _
        exact hsel
  | cons p prest =>
      rw [hm] at hsel
      have hmem : best_match p prest ∈ p :: prest := by
        rcases best_match_mem p prest with h | h
        · rw [h]
          exact List.mem_cons_self p prest
        · exact List.mem_cons_of_mem p h
      have hfacts := mem_server_matches kw (str_lower query) (n0 :: rest)
        (best_match p prest) (by rw [hm]; exact hmem)
      obtain ⟨hin, heq, hpos⟩ := hfacts
      refine ⟨?_, ?_, ?_⟩
      · rw [hsel]
        exact hin
      · intro n hn
        rw [hsel, ← heq]
        by_cases hp : 0 < match_count kw (str_lower query) n
        · have hmm := server_matches_of_pos kw (str_lower query) (n0 :: rest) n hn hp
          rw [hm] at hmm
          have hle : (n, match_count kw (str_lower query) n).2 ≤
              (best_match p prest).2 := by
            rcases List.mem_cons.mp hmm with h | h
            · rw [h]
              exact (best_match_ge p prest).1
            · exact (best_match_ge p prest).2 _ h
          exact hle
        · have : match_count kw (str_lower query) n = 0 :=
            Nat.eq_zero_of_not_pos hp
          rw [this]
          exact Nat.zero_le _
      · intro hzero
        exfalso
        have hpmem := mem_server_matches kw (str_lower query) (n0 :: rest) p
          (by rw [hm]; exact List.mem_cons_self p prest)
        obtain ⟨hin2, heq2, hpos2⟩ := hpmem
        rw [heq2] at hpos2
        rw [hzero p.1 hin2] at hpos2
        exact Nat.lt_irrefl 0 hpos2

/-- C10 witness: with keywords configured for `gmail`, the query
"check my gmail" selects `gmail` out of `[notion, gmail]` (an element of
the list, with maximal match count); a query matching nothing selects
the first server. -/
theorem select_server_spec_witness :
    select_appropriate_server gmail_keywords "check my gmail"
        ["notion", "gmail"] ∈ (["notion", "gmail"] : List String)
  ∧ match_count gmail_keywords (str_lower "check my gmail") "notion" ≤
      match_count gmail_keywords (str_lower "check my gmail")
        (select_appropriate_server gmail_keywords "check my gmail"
          ["notion", "gmail"])
  ∧ select_appropriate_server [] "xyz" ["a", "b"] = "a" :=
  ⟨(select_server_spec gmail_keywords "check my gmail" "notion" ["gmail"]).1,
   (select_server_spec gmail_keywords "check my gmail" "notion"
      ["gmail"]).2.1 "notion" (by decide),
   (select_server_spec [] "xyz" "a" ["b"]).2.2 (by decide)⟩

end MCPClient

end SlackMcp
